import Mathlib

/-!
Verification of the study-tracker session time-accounting core.

The JavaScript source is embedded shallowly:
* machine numbers become `Int` (all quantities here are integer milliseconds,
  seconds, or calendar indices; `Math.round`/`Math.floor` become explicit
  floor operations — the Lean `Int` division `/` is Euclidean division, which
  for the positive divisors used here coincides with real floor);
* JS `null`/`undefined`/absent fields become `Option`;
* the local time zone of the browser is modelled as a fixed UTC offset `off`
  (milliseconds east of UTC), so the instant `ts` has local wall-clock value
  `ts + off`; a local calendar day is one block of 86400000 such values;
* an ISO date string `"YYYY-MM-DD"` is represented by its day index
  (days since 1970-01-01): two instants get the same
  `toISOString().slice(0,10)` exactly when they have the same UTC day index.
-/

/-- Constant `MS_PER_DAY` from `src/App.js`. -/
def msPerDay : Int := 86400000

/-- Value of `Math.round(m / 1000)` for an integer count `m` of milliseconds:
JS rounds half toward positive infinity, i.e. `floor(m/1000 + 1/2)`. -/
def jsRound (m : Int) : Int := (m + 500) / 1000

/-- Index of the local calendar day containing the instant `ts`,
for a zone at fixed offset `off` ms east of UTC. -/
def localDayIdx (off ts : Int) : Int := (ts + off) / msPerDay

/-- Instant of local midnight of the day containing `ts`:
the value of `new Date(ts).setHours(0, 0, 0, 0)` in the zone `off`. -/
def startOfLocalDay (off ts : Int) : Int := localDayIdx off ts * msPerDay - off

/-- Instant of the next local midnight strictly after the day containing `ts`:
the value of `new Date(ts).setHours(24, 0, 0, 0)` in the zone `off`
(the "Move to start of next day" step of `countsByDay`). -/
def startOfNextLocalDay (off ts : Int) : Int :=
  (localDayIdx off ts + 1) * msPerDay - off

/-- Function `startOfDayISO` from `src/App.js`:
zeroes the time of day in the local zone (`setHours(0,0,0,0)`) and then
renders the resulting instant with `toISOString().slice(0, 10)`, i.e. takes
its UTC day index. -/
def startOfDayISO (off ts : Int) : Int := startOfLocalDay off ts / msPerDay

/-- One step bound for the day-decomposition loop: fuel-indexed body.  Each
iteration advances the cursor by at least one millisecond (the next local
midnight is strictly later), so `(eMs - sMs).toNat` units of fuel always
suffice; `daySegments` below supplies exactly that, making the pair a
faithful rendering of the `while (cursor < eMs)` loop. -/
def daySegmentsAux (off : Int) : Nat → Int → Int → List (Int × Int)
  | 0, _, _ => []
  | fuel + 1, sMs, eMs =>
    if sMs < eMs then
      let segEnd := min eMs (startOfNextLocalDay off sMs)
      (startOfDayISO off sMs, jsRound (segEnd - sMs)) ::
        daySegmentsAux off fuel segEnd eMs
    else []

/-- The day-decomposition loop of `countsByDay` (`src/App.js`), run for one
session with resolved start `sMs` and end `eMs`.  Returns, in order, the
segments it produces: for each one the bucket key `startOfDayISO cursor`
and the seconds `Math.round((segEnd - cursor) / 1000)` added to that bucket. -/
def daySegments (off sMs eMs : Int) : List (Int × Int) :=
  daySegmentsAux off (eMs - sMs).toNat sMs eMs

/-- Number of local calendar days the half-open interval `[sMs, eMs)` touches. -/
def daysSpanned (off sMs eMs : Int) : Int :=
  localDayIdx off (eMs - 1) - localDayIdx off sMs + 1

/-- A raw stored record as the loader sees it: every field may be absent
(`none` also standing for JS `null`/`undefined`).  `date` is the legacy
field; `some d` is a truthy date value whose parse yields the instant `d`,
`none` an absent or falsy one. -/
structure RawRecord where
  id : Option String
  startAt : Option Int
  endAt : Option Int
  durationMs : Option Int
  date : Option Int
  topic : Option String
  notes : Option String
  tags : Option (List String)
  deriving DecidableEq

/-- JS `a || b` for a possibly-absent number `a`: keep `a` when it is present
and nonzero (truthy), else use `b`. -/
def jsOrI (v : Option Int) (d : Int) : Int :=
  match v with
  | some n => if n = 0 then d else n
  | none => d

/-- JS `a || b` for a possibly-absent string `a`: keep `a` when it is present
and nonempty (truthy), else use `b`. -/
def jsOrS (v : Option String) (d : String) : String :=
  match v with
  | some s => if s = ("") then d else s
  | none => d

/-- JS truthiness test of a possibly-absent number. -/
def truthyI (v : Option Int) : Bool :=
  match v with
  | some n => n != 0
  | none => false

/-- The `"(no topic)"` sentinel. -/
def noTopic : String := "(no topic)"

/-- The load-time normalizer of `src/App.js` (the `stored.map` in the
initial-load effect), for one raw stored record:

```
id:         s.id || <random>                          -- `fresh`
endAt:      s.endAt || (s.date ? parse(s.date) : Date.now())
startAt:    s.startAt ?? (s.endAt ? s.endAt - (s.durationMs || 0) : Date.now())
durationMs: s.durationMs || 0
topic:      s.topic || "(no topic)"
notes:      s.notes || ""
tags:       Array.isArray(s.tags) ? s.tags : []
```

`now` stands for `Date.now()` and `fresh` for the freshly drawn random id.
The JS spread `{ ...s, ... }` keeps every other stored field (notably the
legacy `date`), so the result is again a `RawRecord` with the canonical
fields filled in.  Note the `startAt` fallback reads the raw `s.endAt`, not
the resolved one, and that `??` (unlike `||`) keeps a stored `0`. -/
def normalizeRecord (now : Int) (fresh : String) (s : RawRecord) : RawRecord :=
  { s with
    id := some (jsOrS s.id fresh),
    endAt := some (jsOrI s.endAt (match s.date with | some d => d | none => now)),
    startAt := some (match s.startAt with
      | some a => a
      | none =>
          if truthyI s.endAt then s.endAt.getD 0 - jsOrI s.durationMs 0 else now),
    durationMs := some (jsOrI s.durationMs 0),
    topic := some (jsOrS s.topic noTopic),
    notes := some (jsOrS s.notes ("")),
    tags := some (s.tags.getD []) }

/-- A canonical in-memory session (the shape every element of the `sessions`
state has after loading or a stopwatch stop). -/
structure Session where
  id : String
  startAt : Int
  endAt : Int
  durationMs : Int
  topic : String
  notes : String
  tags : List String
  deriving DecidableEq

/-- State of the stopwatch hook (`src/hooks/stopwatch.js`). -/
structure SwState where
  isRunning : Bool
  startAt : Option Int
  elapsedOffset : Int
  deriving DecidableEq

/-- The record `stop()` returns when the elapsed duration is positive. -/
structure SessionDraft where
  durationMs : Int
  startAt : Int
  endAt : Int
  deriving DecidableEq

/-- Function `stop()` from `src/hooks/stopwatch.js`: computes the final duration,
always resets the state, and returns a draft only for a positive duration.
In JS arithmetic a `null` `startAt` coerces to `0`, hence `getD 0`. -/
def stopStopwatch (st : SwState) (now : Int) : Option SessionDraft × SwState :=
  let duration :=
    if st.isRunning then now - st.startAt.getD 0 + st.elapsedOffset
    else st.elapsedOffset
  if duration ≤ 0 then (none, ⟨false, none, 0⟩)
  else (some ⟨duration, now - duration, now⟩, ⟨false, none, 0⟩)

/-- The edit draft as `saveEdit` (`src/App.js`) reads it.  `startAt`/`endAt`
hold the result of the `Number(...)` coercion: `none` models a NaN
(non-numeric) value. -/
structure EditDraft where
  id : String
  startAt : Option Int
  endAt : Option Int
  topic : String
  notes : String
  tagsInput : String
  deriving DecidableEq

/-- Tag parsing of `saveEdit`: `(editDraft.tagsInput || "").split(",").map(t => t.trim()).filter(Boolean)`. -/
def parseTags (input : String) : List String :=
  ((input.splitOn (",")).map String.trim).filter (fun t => t ≠ "")

/-- The full-record replacement `saveEdit` applies to the one session whose
id matches `editingId` (`{ ...s, ...updated }`; `updated` overrides every
canonical field, with `durationMs` recomputed as `ea - sa`). -/
def applyEdit (editingId : String) (draft : EditDraft) (sa ea : Int)
    (s : Session) : Session :=
  if s.id = editingId then
    { id := draft.id, startAt := sa, endAt := ea, durationMs := ea - sa,
      topic := draft.topic, notes := draft.notes,
      tags := parseTags draft.tagsInput }
  else s

/-- Function `saveEdit` from `src/App.js`.  Returns the user-facing rejection message
(if any) together with the session collection afterwards; a rejection
(`return alert(...)`) leaves the collection untouched. -/
def saveEdit (now : Int) (editingId : String) (draft : EditDraft)
    (sessions : List Session) : Option String × List Session :=
  match draft.startAt, draft.endAt with
  | some sa, some ea =>
    if ea ≤ sa then (some ("End time must be after start time"), sessions)
    else if ea > now then (some ("End time cannot be in the future"), sessions)
    else (none, sessions.map (applyEdit editingId draft sa ea))
  | _, _ => (some ("Please enter valid dates"), sessions)

/-- The six values of the range `<select>`. -/
inductive RangeSel
  | week
  | twoWeeks
  | month
  | threeMonths
  | sixMonths
  | year
  deriving DecidableEq

/-- Days since 1970-01-01 of the proleptic-Gregorian civil date `(y, m, d)`;
`m` is 1-based and `d` may lie outside the month, in which case the date
normalizes by day offset — exactly the normalization JS `Date` setters do. -/
def daysFromCivil (y m d : Int) : Int :=
  let y2 := if m ≤ 2 then y - 1 else y
  let m2 := if m ≤ 2 then m + 9 else m - 3
  let era := y2 / 400
  let yoe := y2 - era * 400
  let doy := (153 * m2 + 2) / 5 + d - 1
  let doe := yoe * 365 + yoe / 4 - yoe / 100 + doy
  era * 146097 + doe - 719468

/-- Civil date `(y, m, d)` of the day `z` days after 1970-01-01. -/
def civilFromDays (z : Int) : Int × Int × Int :=
  let z2 := z + 719468
  let era := z2 / 146097
  let doe := z2 - era * 146097
  let yoe := (doe - doe / 1460 + doe / 36524 - doe / 146096) / 365
  let y := yoe + era * 400
  let doy := doe - (365 * yoe + yoe / 4 - yoe / 100)
  let mp := (5 * doy + 2) / 153
  let d := doy - (153 * mp + 2) / 5 + 1
  let m := if mp < 10 then mp + 3 else mp - 9
  (if m ≤ 2 then y + 1 else y, m, d)

/-- Effect of `cutoff.setDate(cutoff.getDate() - k)`: rewrite the local day-of-month,
letting the out-of-range value normalize. -/
def subDays (off ts k : Int) : Int :=
  let lt := ts + off
  let day := lt / msPerDay
  let tod := lt % msPerDay
  let c := civilFromDays day
  daysFromCivil c.1 c.2.1 (c.2.2 - k) * msPerDay + tod - off

/-- Effect of `cutoff.setMonth(cutoff.getMonth() - k)`: move back `k` calendar months,
keeping the local day-of-month and time of day (day overflow normalizes,
e.g. March 31 minus one month becomes March 3). -/
def subMonths (off ts k : Int) : Int :=
  let lt := ts + off
  let day := lt / msPerDay
  let tod := lt % msPerDay
  let c := civilFromDays day
  let total := c.1 * 12 + (c.2.1 - 1) - k
  daysFromCivil (total / 12) (total % 12 + 1) c.2.2 * msPerDay + tod - off

/-- Effect of `cutoff.setFullYear(cutoff.getFullYear() - k)`: move back `k` calendar
years, keeping month, day-of-month and time of day (Feb 29 normalizes to
Mar 1 in a non-leap target year). -/
def subYears (off ts k : Int) : Int :=
  let lt := ts + off
  let day := lt / msPerDay
  let tod := lt % msPerDay
  let c := civilFromDays day
  daysFromCivil (c.1 - k) c.2.1 c.2.2 * msPerDay + tod - off

/-- Function `getDateCutoff` from `src/App.js`: copy the current instant and move it
back by the selected calendar amount using the local-calendar setters. -/
def getDateCutoff (off now : Int) : RangeSel → Int
  | .week => subDays off now 7
  | .twoWeeks => subDays off now 14
  | .month => subMonths off now 1
  | .threeMonths => subMonths off now 3
  | .sixMonths => subMonths off now 6
  | .year => subYears off now 1

/-- Memo `filteredSessions` from `src/App.js`:
keep sessions with `(s.endAt || s.startAt) >= cutoff.getTime()`, then, when
tags are selected, those with
`(s.tags || []).some(tag => selectedTags.includes(tag))`. -/
def filteredSessions (off now : Int) (range : RangeSel)
    (selectedTags : List String) (sessions : List Session) : List Session :=
  let cutoff := getDateCutoff off now range
  let dateFiltered := sessions.filter
    (fun s => decide (cutoff ≤ if s.endAt = 0 then s.startAt else s.endAt))
  if selectedTags.isEmpty then dateFiltered
  else dateFiltered.filter (fun s => s.tags.any (fun t => selectedTags.contains t))

/-- Update `counts[key] = (counts[key] || 0) + seconds` on a JS object, modelled as
an insertion-ordered association list (JS objects enumerate keys in
insertion order, which is what `Object.keys(...).length` sees). -/
def bump (counts : List (Int × Int)) (k v : Int) : List (Int × Int) :=
  if counts.any (fun p => decide (p.1 = k)) then
    counts.map (fun p => if p.1 = k then (p.1, p.2 + v) else p)
  else counts ++ [(k, v)]

/-- Run the day-decomposition segments of one session into the bucket map. -/
def addSegments (counts : List (Int × Int)) (segs : List (Int × Int)) :
    List (Int × Int) :=
  segs.foldl (fun c p => bump c p.1 p.2) counts

/-- Endpoint resolution and skip guard of `countsByDay` (`src/App.js`):
`start = sess.startAt || (sess.endAt ? sess.endAt - sess.durationMs : null)`,
`end = sess.endAt || (sess.startAt ? sess.startAt + sess.durationMs : null)`,
skip when `!sMs || !eMs || eMs <= sMs`.  `new Date(null).getTime()` is `0`
and `!0` is true, so `0` stands for the `null` case as well. -/
def resolveBounds (sess : Session) : Option (Int × Int) :=
  let sMs := if sess.startAt ≠ 0 then sess.startAt
    else if sess.endAt ≠ 0 then sess.endAt - sess.durationMs else 0
  let eMs := if sess.endAt ≠ 0 then sess.endAt
    else if sess.startAt ≠ 0 then sess.startAt + sess.durationMs else 0
  if sMs = 0 ∨ eMs = 0 ∨ eMs ≤ sMs then none else some (sMs, eMs)

/-- Memo `countsByDay` from `src/App.js`: the per-day seconds buckets accumulated
over the filtered sessions. -/
def countsByDay (off : Int) (filtered : List Session) : List (Int × Int) :=
  filtered.foldl (fun counts sess =>
    match resolveBounds sess with
    | none => counts
    | some b => addSegments counts (daySegments off b.1 b.2)) []

/-- Field `totalTime` in `stats` (`src/App.js`):
`filteredSessions.reduce((sum, s) => sum + (s.durationMs || 0), 0)`
(for integers `x || 0` is just `x`). -/
def statsTotalMs (filtered : List Session) : Int :=
  filtered.foldl (fun sum s => sum + s.durationMs) 0

/-- Field `studyDays` in `stats`: `Object.keys(countsByDay).length || 1`. -/
def statsStudyDays (off : Int) (filtered : List Session) : Int :=
  if (countsByDay off filtered).length = 0 then 1
  else ((countsByDay off filtered).length : Int)

/-- The whole-second total the UI shows: `secondsToHMS(totalTime / 1000)`
floors its argument (`Math.floor`), modelled exactly over ℚ. -/
def statsTotalSec (filtered : List Session) : Int :=
  ⌊(statsTotalMs filtered : ℚ) / 1000⌋

/-- Field `avg` in `stats`: `Math.floor(totalTime / 1000 / studyDays)`,
modelled exactly over ℚ. -/
def statsAvgSec (off : Int) (filtered : List Session) : Int :=
  ⌊(statsTotalMs filtered : ℚ) / 1000 / (statsStudyDays off filtered : ℚ)⌋

/-- Number of buckets holding a nonzero second count. -/
def nonzeroDayCount (off : Int) (filtered : List Session) : Int :=
  (((countsByDay off filtered).filter (fun p => decide (p.2 ≠ 0))).length : Int)

/-- Sum of all bucket values. -/
def bucketSum (off : Int) (filtered : List Session) : Int :=
  ((countsByDay off filtered).map Prod.snd).sum

/-- Constant `DEFAULT_THRESHOLDS` from `src/App.js`. -/
def DEFAULT_THRESHOLDS : List Int :=
  [1, 1800, 3600, 7200, 10800, 14400, 18000, 21600, 25200]

/-- Function `colorForCount` from `src/App.js`.  The first guard models
`!seconds || seconds <= 0` (for an integer the two disjuncts coincide). -/
def colorForCount (seconds : Int) : String :=
  if seconds ≤ 0 then ("bg-gray-700")
  else if DEFAULT_THRESHOLDS.getD 8 0 ≤ seconds then ("bg-green-200")
  else if DEFAULT_THRESHOLDS.getD 7 0 ≤ seconds then ("bg-green-300")
  else if DEFAULT_THRESHOLDS.getD 6 0 ≤ seconds then ("bg-green-400")
  else if DEFAULT_THRESHOLDS.getD 5 0 ≤ seconds then ("bg-green-500")
  else if DEFAULT_THRESHOLDS.getD 4 0 ≤ seconds then ("bg-green-600")
  else if DEFAULT_THRESHOLDS.getD 3 0 ≤ seconds then ("bg-green-700")
  else if DEFAULT_THRESHOLDS.getD 2 0 ≤ seconds then ("bg-green-800")
  else if DEFAULT_THRESHOLDS.getD 1 0 ≤ seconds then ("bg-green-900")
  else if DEFAULT_THRESHOLDS.getD 0 0 ≤ seconds then ("bg-green-950")
  else ("bg-gray-700")

/-- Position of a tile color in the documented ordering of the ten tiers,
from the "no activity" tier upward. -/
def tierRank (c : String) : Nat :=
  if c = ("bg-gray-700") then 0
  else if c = ("bg-green-950") then 1
  else if c = ("bg-green-900") then 2
  else if c = ("bg-green-800") then 3
  else if c = ("bg-green-700") then 4
  else if c = ("bg-green-600") then 5
  else if c = ("bg-green-500") then 6
  else if c = ("bg-green-400") then 7
  else if c = ("bg-green-300") then 8
  else if c = ("bg-green-200") then 9
  else 0

/-- The chain of threshold comparisons of `colorForCount`, mapped to the
position of the produced tier in the documented ordering. -/
def colorIdx (seconds : Int) : Nat :=
  if seconds ≤ 0 then 0
  else if 25200 ≤ seconds then 9
  else if 21600 ≤ seconds then 8
  else if 18000 ≤ seconds then 7
  else if 14400 ≤ seconds then 6
  else if 10800 ≤ seconds then 5
  else if 7200 ≤ seconds then 4
  else if 3600 ≤ seconds then 3
  else if 1800 ≤ seconds then 2
  else if 1 ≤ seconds then 1
  else 0

/-- A fixed current instant for the concrete range-filter check
(2023-11-14T22:13:20Z). -/
def exNow : Int := 1700000000000

/-- A session that ended eight days before `exNow`. -/
def exSession8 : Session :=
  ⟨("s8"), exNow - 8 * msPerDay - 3600000, exNow - 8 * msPerDay, 3600000,
    noTopic, (""), []⟩

/-- A session that ended six days before `exNow`. -/
def exSession6 : Session :=
  ⟨("s6"), exNow - 6 * msPerDay - 3600000, exNow - 6 * msPerDay, 3600000,
    noTopic, (""), []⟩

/-- A 400 ms session: its single bucket rounds to 0 seconds. -/
def exZeroSession : Session := ⟨("a"), 1000, 1400, 400, noTopic, (""), []⟩

/-- A 10 s session on the following day. -/
def exTenSession : Session :=
  ⟨("b"), 86401000, 86411000, 10000, noTopic, (""), []⟩

/-- A 600 ms session: its bucket rounds up to 1 second while the displayed
total floors to 0. -/
def exSubSecondSession : Session := ⟨("c"), 1000, 1600, 600, noTopic, (""), []⟩

/-!  Theorems. -/

theorem lt_startOfNextLocalDay (off ts : Int) : ts < startOfNextLocalDay off ts := by
  simp only [startOfNextLocalDay, localDayIdx, msPerDay]
  omega

/-- Any sufficient amount of fuel produces the same segment list, so the
fuel is an artifact of the encoding, not of the loop behaviour. -/
theorem daySegmentsAux_congr (off : Int) :
    ∀ (n m : Nat) (s e : Int), (e - s).toNat ≤ n → (e - s).toNat ≤ m →
      daySegmentsAux off n s e = daySegmentsAux off m s e := by
  intro n
  induction n with
  | zero =>
      intro m s e hn hm
      have hse : ¬ s < e := by omega
      cases m with
      | zero => rfl
      | succ m2 => simp [daySegmentsAux, hse]
  | succ k ih =>
      intro m s e hn hm
      by_cases hlt : s < e
      · cases m with
        | zero => omega
        | succ m2 =>
            have hadv := lt_startOfNextLocalDay off s
            simp only [daySegmentsAux, if_pos hlt]
            congr 1
            exact ih m2 _ e (by omega) (by omega)
      · cases m with
        | zero => simp [daySegmentsAux, hlt]
        | succ m2 => simp [daySegmentsAux, hlt]

theorem daySegments_eq_cons {off s e : Int} (hlt : s < e) :
    daySegments off s e =
      (startOfDayISO off s, jsRound (min e (startOfNextLocalDay off s) - s)) ::
        daySegments off (min e (startOfNextLocalDay off s)) e := by
  have hadv := lt_startOfNextLocalDay off s
  unfold daySegments
  obtain ⟨k, hk⟩ : ∃ k, (e - s).toNat = k + 1 := ⟨(e - s).toNat - 1, by omega⟩
  rw [hk]
  simp only [daySegmentsAux, if_pos hlt]
  congr 1
  exact daySegmentsAux_congr off k
    ((e - min e (startOfNextLocalDay off s)).toNat) _ e (by omega) (le_refl _)

theorem daySegments_eq_nil {off s e : Int} (hge : e ≤ s) : daySegments off s e = [] := by
  unfold daySegments
  have h0 : (e - s).toNat = 0 := by omega
  rw [h0]
  rfl

/-- Rounding a millisecond count to whole seconds moves it by at most half a
second in either direction. -/
theorem jsRound_err (m : Int) : -500 ≤ 1000 * jsRound m - m ∧ 1000 * jsRound m - m ≤ 500 := by
  simp only [jsRound]
  omega

/-- The total seconds one run of the loop for a single session adds, summed over its
segments, differs from the exact millisecond length of `[s, e)` by at most
half a second per segment. -/
theorem daySegments_sum_err (off : Int) :
    ∀ (n : ℕ) (s e : Int), (e - s).toNat ≤ n → s ≤ e →
      -(500 * ((daySegments off s e).length : Int)) ≤
          1000 * ((daySegments off s e).map Prod.snd).sum - (e - s) ∧
        1000 * ((daySegments off s e).map Prod.snd).sum - (e - s) ≤
          500 * ((daySegments off s e).length : Int) := by
  intro n
  induction n with
  | zero =>
      intro s e hn hle
      have hse : s = e := by omega
      subst hse
      rw [daySegments_eq_nil (le_refl s)]
      simp
  | succ k ih =>
      intro s e hn hle
      rcases eq_or_lt_of_le hle with heq | hlt
      · subst heq
        rw [daySegments_eq_nil (le_refl s)]
        simp
      · have hnext := lt_startOfNextLocalDay off s
        rw [daySegments_eq_cons hlt]
        have h1 : s < min e (startOfNextLocalDay off s) := by omega
        have h2 : min e (startOfNextLocalDay off s) ≤ e := by omega
        have ihr := ih (min e (startOfNextLocalDay off s)) e (by omega) (by omega)
        have hj := jsRound_err (min e (startOfNextLocalDay off s) - s)
        simp only [List.map_cons, List.sum_cons, List.length_cons]
        push_cast
        omega

/-- One segment is produced per local calendar day the interval touches. -/
theorem daySegments_length_aux (off : Int) :
    ∀ (n : ℕ) (s e : Int), (e - s).toNat ≤ n → s < e →
      ((daySegments off s e).length : Int) = daysSpanned off s e := by
  intro n
  induction n with
  | zero =>
      intro s e hn hlt
      exact absurd hn (by omega)
  | succ k ih =>
      intro s e hn hlt
      have hnext := lt_startOfNextLocalDay off s
      rw [daySegments_eq_cons hlt]
      rcases le_or_lt e (startOfNextLocalDay off s) with hle | hgt
      · rw [min_eq_left hle, daySegments_eq_nil (le_refl e)]
        simp only [List.length_cons, List.length_nil, Nat.cast_one]
        simp only [daysSpanned, startOfNextLocalDay, localDayIdx, msPerDay] at *
        omega
      · rw [min_eq_right (le_of_lt hgt)]
        have ihr := ih (startOfNextLocalDay off s) e (by omega) hgt
        simp only [List.length_cons]
        push_cast
        simp only [daysSpanned, startOfNextLocalDay, localDayIdx, msPerDay] at *
        omega

/-- For a zone strictly ahead of UTC the rendered key names the day before
the local one, because `toISOString` re-reads the local-midnight instant in
UTC; for zones at or behind UTC (by less than a day) it is the local day. -/
theorem startOfDayISO_offset_shift :
    (∀ off ts : Int, 0 < off → off < msPerDay →
        startOfDayISO off ts = localDayIdx off ts - 1) ∧
      ∀ off ts : Int, -msPerDay < off → off ≤ 0 →
        startOfDayISO off ts = localDayIdx off ts := by
  constructor <;>
    · intro off ts h1 h2
      simp only [startOfDayISO, startOfLocalDay, localDayIdx, msPerDay] at *
      omega

/-- C3: for every session with resolved start `sMs` and end `eMs` where
`eMs > sMs`, the seconds the day-decomposition loop adds, summed over all
its buckets, equal `round((eMs - sMs)/1000)` within ± the number of local
calendar days the interval spans. -/
theorem daySegments_conserves_duration (off sMs eMs : Int) (h : sMs < eMs) :
    |((daySegments off sMs eMs).map Prod.snd).sum - jsRound (eMs - sMs)| ≤
      daysSpanned off sMs eMs := by
  have hb := daySegments_sum_err off (eMs - sMs).toNat sMs eMs (le_refl _) (le_of_lt h)
  have hj := jsRound_err (eMs - sMs)
  have hlen := daySegments_length_aux off (eMs - sMs).toNat sMs eMs (le_refl _) h
  have hlen1 : 1 ≤ ((daySegments off sMs eMs).length : Int) := by
    rw [daySegments_eq_cons h]
    simp only [List.length_cons]
    push_cast
    omega
  rw [abs_le]
  omega

theorem daySegments_conserves_duration_witness :
    (86300000 : Int) < 86500000 ∧
      |((daySegments 0 86300000 86500000).map Prod.snd).sum -
          jsRound (86500000 - 86300000)| ≤
        daysSpanned 0 86300000 86500000 :=
  ⟨by decide, daySegments_conserves_duration 0 86300000 86500000 (by decide)⟩

/-- C10: the day-decomposition while-loop terminates: the start of the next
local calendar day is strictly after the cursor, so every iteration strictly
advances it, and the loop performs exactly one iteration per local calendar
day the interval spans. -/
theorem daySegments_terminates :
    (∀ off c : Int, c < startOfNextLocalDay off c) ∧
      ∀ off s e : Int, s < e →
        ((daySegments off s e).length : Int) = daysSpanned off s e := by
  refine ⟨lt_startOfNextLocalDay, ?_⟩
  intro off s e h
  exact daySegments_length_aux off (e - s).toNat s e (le_refl _) h

theorem daySegments_terminates_witness :
    ((5 : Int) < startOfNextLocalDay 3600000 5) ∧
      ((0 : Int) < 90000000 ∧
        ((daySegments 0 0 90000000).length : Int) = daysSpanned 0 0 90000000) :=
  ⟨daySegments_terminates.1 3600000 5,
    by decide, daySegments_terminates.2 0 0 90000000 (by decide)⟩

/-- C2 (code-bug evidence): at UTC offset +02:00 (`off = 7200000`) and
timestamp `86400000` (1970-01-02T00:00Z, local wall clock 02:00 on Jan 2),
the local calendar day is day 1 (1970-01-02) but `startOfDayISO` keys
day 0 (1970-01-01): the zeroing happens in local time, yet `toISOString`
re-reads the local-midnight instant in UTC, shifting the key by one day for
every zone ahead of UTC. -/
theorem startOfDayISO_not_local_day :
    startOfDayISO 7200000 86400000 = 0 ∧ localDayIdx 7200000 86400000 = 1 ∧
      startOfDayISO 7200000 86400000 ≠ localDayIdx 7200000 86400000 := by
  decide

/-- C5: `stop()` returns `null` exactly when the final duration
`elapsedOffset + (isRunning ? now - startAt : 0)` is ≤ 0; otherwise it
returns a draft with `endAt = now`, `startAt = now - duration` and
`durationMs = duration` (hence `endAt - startAt = durationMs`); in both
cases the post-state is idle with `elapsedOffset = 0` and `startAt = null`. -/
theorem stopStopwatch_spec (st : SwState) (now : Int) :
    ((stopStopwatch st now).1 = none ↔
        st.elapsedOffset + (if st.isRunning then now - st.startAt.getD 0 else 0) ≤ 0) ∧
      (∀ d : SessionDraft, (stopStopwatch st now).1 = some d →
        d.endAt = now ∧
          d.startAt = now -
            (st.elapsedOffset + (if st.isRunning then now - st.startAt.getD 0 else 0)) ∧
          d.durationMs =
            st.elapsedOffset + (if st.isRunning then now - st.startAt.getD 0 else 0) ∧
          d.endAt - d.startAt = d.durationMs) ∧
      (stopStopwatch st now).2 = ⟨false, none, 0⟩ := by
  rcases st with ⟨run, sa, eo⟩
  cases run <;>
    simp only [stopStopwatch, if_true, if_false, Bool.false_eq_true, ite_true, ite_false] <;>
    split_ifs with hd <;>
    refine ⟨by simp <;> omega, ?_, rfl⟩ <;>
    · intro d hd2
      first
        | (simp only [Option.some.injEq] at hd2; subst hd2; dsimp only;
            refine ⟨rfl, by omega, by omega, by omega⟩)
        | simp at hd2

theorem stopStopwatch_spec_witness :
    ((stopStopwatch ⟨true, some 400, 100⟩ 1000).1 = none ↔
        (100 : Int) + (1000 - 400) ≤ 0) ∧
      (∀ d : SessionDraft, (stopStopwatch ⟨true, some 400, 100⟩ 1000).1 = some d →
        d.endAt = 1000 ∧ d.startAt = 1000 - (100 + (1000 - 400)) ∧
          d.durationMs = 100 + (1000 - 400) ∧ d.endAt - d.startAt = d.durationMs) ∧
      (stopStopwatch ⟨true, some 400, 100⟩ 1000).2 = ⟨false, none, 0⟩ := by
  have h := stopStopwatch_spec ⟨true, some 400, 100⟩ 1000
  simpa using h

set_option maxHeartbeats 2000000 in
theorem tierRank_colorForCount (s : Int) :
    tierRank (colorForCount s) = colorIdx s := by
  have h0 : DEFAULT_THRESHOLDS.getD 0 0 = 1 := rfl
  have h1 : DEFAULT_THRESHOLDS.getD 1 0 = 1800 := rfl
  have h2 : DEFAULT_THRESHOLDS.getD 2 0 = 3600 := rfl
  have h3 : DEFAULT_THRESHOLDS.getD 3 0 = 7200 := rfl
  have h4 : DEFAULT_THRESHOLDS.getD 4 0 = 10800 := rfl
  have h5 : DEFAULT_THRESHOLDS.getD 5 0 = 14400 := rfl
  have h6 : DEFAULT_THRESHOLDS.getD 6 0 = 18000 := rfl
  have h7 : DEFAULT_THRESHOLDS.getD 7 0 = 21600 := rfl
  have h8 : DEFAULT_THRESHOLDS.getD 8 0 = 25200 := rfl
  rw [colorForCount, colorIdx, h0, h1, h2, h3, h4, h5, h6, h7, h8]
  split_ifs <;> rfl

set_option maxHeartbeats 1000000 in
theorem colorIdx_bounds (s : Int) :
    colorIdx s ≤ 9 ∧
      (1 ≤ colorIdx s → 1 ≤ s) ∧ (2 ≤ colorIdx s → 1800 ≤ s) ∧
      (3 ≤ colorIdx s → 3600 ≤ s) ∧ (4 ≤ colorIdx s → 7200 ≤ s) ∧
      (5 ≤ colorIdx s → 10800 ≤ s) ∧ (6 ≤ colorIdx s → 14400 ≤ s) ∧
      (7 ≤ colorIdx s → 18000 ≤ s) ∧ (8 ≤ colorIdx s → 21600 ≤ s) ∧
      (9 ≤ colorIdx s → 25200 ≤ s) ∧
      (1 ≤ s → 1 ≤ colorIdx s) ∧ (1800 ≤ s → 2 ≤ colorIdx s) ∧
      (3600 ≤ s → 3 ≤ colorIdx s) ∧ (7200 ≤ s → 4 ≤ colorIdx s) ∧
      (10800 ≤ s → 5 ≤ colorIdx s) ∧ (14400 ≤ s → 6 ≤ colorIdx s) ∧
      (18000 ≤ s → 7 ≤ colorIdx s) ∧ (21600 ≤ s → 8 ≤ colorIdx s) ∧
      (25200 ≤ s → 9 ≤ colorIdx s) := by
  simp only [colorIdx]
  repeat' split
  all_goals omega

set_option maxHeartbeats 4000000 in
theorem colorIdx_mono (a b : Int) (hab : a ≤ b) : colorIdx a ≤ colorIdx b := by
  have ha := colorIdx_bounds a
  have hb := colorIdx_bounds b
  omega

/-- C9: the color-tier function is monotone non-decreasing in seconds with
respect to the documented ordering of the ten tiers, and every input that is
zero or negative gets the lowest tier. -/
theorem colorForCount_monotone :
    (∀ a b : Int, a ≤ b → tierRank (colorForCount a) ≤ tierRank (colorForCount b)) ∧
      ∀ s : Int, s ≤ 0 → colorForCount s = ("bg-gray-700") := by
  constructor
  · intro a b hab
    rw [tierRank_colorForCount, tierRank_colorForCount]
    exact colorIdx_mono a b hab
  · intro s hs
    rw [colorForCount, if_pos hs]

theorem colorForCount_monotone_witness :
    (tierRank (colorForCount 1700) ≤ tierRank (colorForCount 4000)) ∧
      colorForCount (-3) = ("bg-gray-700") :=
  ⟨colorForCount_monotone.1 1700 4000 (by decide),
    colorForCount_monotone.2 (-3) (by decide)⟩

theorem jsOrI_idem (v : Option Int) (d : Int) :
    jsOrI (some (jsOrI v d)) d = jsOrI v d := by
  rcases v with _ | n <;> simp only [jsOrI] <;> split_ifs <;> simp_all

theorem jsOrS_idem (v : Option String) (d : String) :
    jsOrS (some (jsOrS v d)) d = jsOrS v d := by
  rcases v with _ | s <;> simp only [jsOrS] <;> split_ifs <;> simp_all

/-- C4: the normalizer is idempotent — re-normalizing its own output (with
the same clock reading and the same drawn id, which is only consulted for
records that lacked one) changes nothing; in particular an already-canonical
record passes through unchanged. -/
theorem normalizeRecord_idempotent (now : Int) (fresh : String) (s : RawRecord) :
    normalizeRecord now fresh (normalizeRecord now fresh s) =
      normalizeRecord now fresh s := by
  rcases s with ⟨id, sa, ea, dm, date, topic, notes, tags⟩
  simp [normalizeRecord, jsOrI_idem, jsOrS_idem]

/-- C1 (counterexample): a stored record supplying all of `startAt = 100`,
`endAt = 500`, `durationMs = 73` keeps its stored duration — the normalizer
defaults a falsy `durationMs` to `0` but never recomputes it from the
endpoints, so `durationMs = endAt - startAt` fails after normalization. -/
theorem normalizeRecord_keeps_stored_duration :
    (normalizeRecord 0 ("x") ⟨none, some 100, some 500, some 73, none, none, none, none⟩).durationMs
        = some 73 ∧
      (normalizeRecord 0 ("x") ⟨none, some 100, some 500, some 73, none, none, none, none⟩).endAt
        = some 500 ∧
      (normalizeRecord 0 ("x") ⟨none, some 100, some 500, some 73, none, none, none, none⟩).startAt
        = some 100 ∧
      (73 : Int) ≠ 500 - 100 := by
  decide

/-- C1 (amended): the invariant `durationMs = endAt - startAt` holds after
normalization exactly on the raw records that omit `startAt` and supply a
truthy `endAt` (then `startAt` is derived as `endAt - (durationMs || 0)`);
for other field subsets the normalizer keeps the stored `durationMs`
(defaulting a falsy one to `0`) without recomputing it, and the invariant
can fail. -/
theorem normalizeRecord_duration_invariant_when_startAt_missing
    (now : Int) (fresh : String) (s : RawRecord) (e : Int)
    (hs : s.startAt = none) (he : s.endAt = some e) (hne : e ≠ 0) :
    (normalizeRecord now fresh s).durationMs =
      some ((normalizeRecord now fresh s).endAt.getD 0 -
        (normalizeRecord now fresh s).startAt.getD 0) := by
  rcases s with ⟨id, sa, ea, dm, date, topic, notes, tags⟩
  simp only at hs he
  subst hs
  subst he
  rcases dm with _ | d <;>
    · simp only [normalizeRecord, truthyI, jsOrI, Option.getD_some, Option.some.injEq,
        bne_iff_ne, ne_eq]
      split_ifs <;> simp_all

theorem normalizeRecord_duration_invariant_witness :
    (⟨none, none, some 500, some 73, none, none, none, none⟩ : RawRecord).startAt = none ∧
      (⟨none, none, some 500, some 73, none, none, none, none⟩ : RawRecord).endAt = some 500 ∧
      (500 : Int) ≠ 0 ∧
      (normalizeRecord 0 ("x") ⟨none, none, some 500, some 73, none, none, none, none⟩).durationMs =
        some ((normalizeRecord 0 ("x") ⟨none, none, some 500, some 73, none, none, none, none⟩).endAt.getD 0 -
          (normalizeRecord 0 ("x") ⟨none, none, some 500, some 73, none, none, none, none⟩).startAt.getD 0) :=
  ⟨rfl, rfl, by decide,
    normalizeRecord_duration_invariant_when_startAt_missing 0 ("x") _ 500 rfl rfl (by decide)⟩

/-- C6: `saveEdit` rejects a draft whose coerced start or end is non-numeric
(NaN), or whose end is not after its start, or whose end lies in the future,
with a user-facing message and without touching the session collection; a
valid draft replaces exactly the session with the edited id, recomputing
`durationMs = endAt - startAt`. -/
theorem saveEdit_spec (now : Int) (editingId : String) (draft : EditDraft)
    (sessions : List Session) :
    ((draft.startAt = none ∨ draft.endAt = none) →
        saveEdit now editingId draft sessions =
          (some ("Please enter valid dates"), sessions)) ∧
      ∀ sa ea : Int, draft.startAt = some sa → draft.endAt = some ea →
        ((ea ≤ sa ∨ now < ea) →
            ((saveEdit now editingId draft sessions).1.isSome = true ∧
              (saveEdit now editingId draft sessions).2 = sessions)) ∧
          (sa < ea → ea ≤ now →
            (saveEdit now editingId draft sessions).1 = none ∧
              (saveEdit now editingId draft sessions).2 =
                sessions.map (applyEdit editingId draft sa ea) ∧
              (∀ s : Session, s.id ≠ editingId →
                applyEdit editingId draft sa ea s = s) ∧
              ∀ s : Session, s.id = editingId →
                (applyEdit editingId draft sa ea s).durationMs = ea - sa ∧
                  (applyEdit editingId draft sa ea s).endAt = ea ∧
                  (applyEdit editingId draft sa ea s).startAt = sa ∧
                  (applyEdit editingId draft sa ea s).endAt -
                      (applyEdit editingId draft sa ea s).startAt =
                    (applyEdit editingId draft sa ea s).durationMs) := by
  constructor
  · intro hbad
    rcases h1 : draft.startAt with _ | v <;> rcases h2 : draft.endAt with _ | w <;>
      simp_all [saveEdit]
  · intro sa ea hsa hea
    constructor
    · intro hbad
      simp only [saveEdit, hsa, hea]
      rcases hbad with hbad | hbad
      · rw [if_pos hbad]
        exact ⟨rfl, rfl⟩
      · by_cases h1 : ea ≤ sa
        · rw [if_pos h1]
          exact ⟨rfl, rfl⟩
        · rw [if_neg h1, if_pos (by omega)]
          exact ⟨rfl, rfl⟩
    · intro h1 h2
      simp only [saveEdit, hsa, hea]
      rw [if_neg (by omega), if_neg (by omega)]
      refine ⟨rfl, rfl, ?_, ?_⟩
      · intro s hs
        simp [applyEdit, hs]
      · intro s hs
        simp [applyEdit, hs]

theorem saveEdit_spec_witness :
    ((⟨("a"), none, some 5, ("t"), (""), ("")⟩ : EditDraft).startAt = none ∨
        (⟨("a"), none, some 5, ("t"), (""), ("")⟩ : EditDraft).endAt = none) ∧
      saveEdit 10 ("a") ⟨("a"), none, some 5, ("t"), (""), ("")⟩ [] =
        (some ("Please enter valid dates"), []) :=
  ⟨Or.inl rfl,
    (saveEdit_spec 10 ("a") ⟨("a"), none, some 5, ("t"), (""), ("")⟩ []).1 (Or.inl rfl)⟩

/-- C7: the filter keeps exactly the sessions whose `endAt` (or `startAt`
when `endAt` is absent/falsy) is at or after the cutoff instant obtained by
moving the current instant back by the calendar unit of the selected range, and —
when the tag selection is non-empty — whose tag list meets the selection
(an empty selection filters nothing); in particular with range `week` a
session whose `endAt` is 8 days old is dropped and one 6 days old is kept. -/
theorem filteredSessions_spec :
    (∀ (off now : Int) (range : RangeSel) (selectedTags : List String)
        (sessions : List Session) (s : Session),
        s ∈ filteredSessions off now range selectedTags sessions ↔
          s ∈ sessions ∧
            getDateCutoff off now range ≤
              (if s.endAt = 0 then s.startAt else s.endAt) ∧
            (selectedTags = [] ∨ ∃ t ∈ s.tags, t ∈ selectedTags)) ∧
      exSession8 ∉ filteredSessions 0 exNow RangeSel.week [] [exSession8, exSession6] ∧
      exSession6 ∈ filteredSessions 0 exNow RangeSel.week [] [exSession8, exSession6] := by
  refine ⟨?_, by decide, by decide⟩
  intro off now range selectedTags sessions s
  simp only [filteredSessions]
  rcases h : selectedTags with _ | ⟨t0, ts⟩
  · simp [List.mem_filter]
  · simp only [List.isEmpty_cons, Bool.false_eq_true, if_false, List.mem_filter,
      List.any_eq_true, decide_eq_true_eq, List.elem_iff]
    constructor
    · rintro ⟨⟨hm, hc⟩, ht⟩
      exact ⟨hm, hc, Or.inr ht⟩
    · rintro ⟨hm, hc, ht | ht⟩
      · exact absurd ht (by simp)
      · exact ⟨⟨hm, hc⟩, ht⟩

theorem foldl_add_durations (l : List Session) :
    ∀ init : Int, l.foldl (fun sum s => sum + s.durationMs) init =
      init + (l.map Session.durationMs).sum := by
  induction l with
  | nil =>
      intro init
      simp
  | cons x xs ih =>
      intro init
      simp only [List.foldl_cons, List.map_cons, List.sum_cons, ih]
      ring

theorem bump_keys_nodup {c : List (Int × Int)} (k v : Int)
    (h : (c.map Prod.fst).Nodup) : ((bump c k v).map Prod.fst).Nodup := by
  unfold bump
  split_ifs with hany
  · have heq : (c.map (fun p => if p.1 = k then (p.1, p.2 + v) else p)).map Prod.fst
        = c.map Prod.fst := by
      rw [List.map_map]
      refine List.map_congr_left ?_
      intro p _
      by_cases hp : p.1 = k <;> simp [hp]
    rw [heq]
    exact h
  · have hk : k ∉ c.map Prod.fst := by
      intro hmem
      rcases List.mem_map.mp hmem with ⟨p, hp, hfst⟩
      apply hany
      simp only [List.any_eq_true, decide_eq_true_eq]
      exact ⟨p, hp, hfst⟩
    rw [List.map_append]
    simp only [List.map_cons, List.map_nil]
    rw [List.nodup_append]
    refine ⟨h, List.nodup_singleton k, ?_⟩
    intro a ha hb
    simp only [List.mem_singleton] at hb
    exact hk (hb ▸ ha)

theorem addSegments_keys_nodup (segs : List (Int × Int)) :
    ∀ c : List (Int × Int), (c.map Prod.fst).Nodup →
      ((addSegments c segs).map Prod.fst).Nodup := by
  induction segs with
  | nil =>
      intro c h
      simpa [addSegments] using h
  | cons p ps ih =>
      intro c h
      simp only [addSegments, List.foldl_cons]
      exact ih (bump c p.1 p.2) (bump_keys_nodup p.1 p.2 h)

theorem countsByDay_keys_nodup (off : Int) (filtered : List Session) :
    ((countsByDay off filtered).map Prod.fst).Nodup := by
  have main : ∀ (l : List Session) (c : List (Int × Int)), (c.map Prod.fst).Nodup →
      ((l.foldl (fun counts sess =>
          match resolveBounds sess with
          | none => counts
          | some b => addSegments counts (daySegments off b.1 b.2)) c).map
        Prod.fst).Nodup := by
    intro l
    induction l with
    | nil =>
        intro c h
        simpa using h
    | cons x xs ih =>
        intro c h
        rcases hb : resolveBounds x with _ | b
        · simp only [List.foldl_cons, hb]
          exact ih c h
        · simp only [List.foldl_cons, hb]
          exact ih _ (addSegments_keys_nodup _ c h)
  simpa [countsByDay] using main filtered [] (by simp)

theorem statsStudyDays_ge_one (off : Int) (filtered : List Session) :
    1 ≤ statsStudyDays off filtered := by
  unfold statsStudyDays
  split_ifs with h <;> omega

/-- C8 (counterexample): with a 400 ms session on one day and a 10 s session
on the next, the code counts 2 study days (the zero-valued bucket included)
while the buckets with a nonzero value number 1; and a single 600 ms session
shows the displayed total (0 s, floored from the summed `durationMs`)
differing from the bucket sum (1 s, rounded per segment). -/
theorem stats_claim_false :
    statsStudyDays 0 [exZeroSession, exTenSession] = 2 ∧
      nonzeroDayCount 0 [exZeroSession, exTenSession] = 1 ∧
      statsTotalSec [exSubSecondSession] = 0 ∧
      bucketSum 0 [exSubSecondSession] = 1 := by
  refine ⟨by decide, by decide, ?_, by decide⟩
  have h : statsTotalMs [exSubSecondSession] = 600 := by decide
  unfold statsTotalSec
  rw [h]
  norm_num

/-- C8 (amended): `totalTime` is the sum over the filtered sessions of
`durationMs` (in milliseconds; the displayed total floors it to seconds and
may differ from the bucket sum by per-segment rounding); `daysStudied` is
the number of distinct day keys — zero-valued buckets included — with a
minimum of 1; and the average is `floor(totalTime / 1000 / daysStudied)`. -/
theorem stats_spec (off : Int) (filtered : List Session) :
    statsTotalMs filtered = (filtered.map Session.durationMs).sum ∧
      ((countsByDay off filtered).map Prod.fst).Nodup ∧
      statsStudyDays off filtered = max 1 ((countsByDay off filtered).length : Int) ∧
      statsTotalSec filtered = statsTotalMs filtered / 1000 ∧
      statsAvgSec off filtered =
        statsTotalMs filtered / (1000 * statsStudyDays off filtered) := by
  refine ⟨by simpa [statsTotalMs] using foldl_add_durations filtered 0,
    countsByDay_keys_nodup off filtered, ?_, ?_, ?_⟩
  · unfold statsStudyDays
    split_ifs with h <;> omega
  · unfold statsTotalSec
    rw [show ((1000 : ℚ)) = ((1000 : ℕ) : ℚ) by norm_num]
    rw [Rat.floor_intCast_div_natCast (statsTotalMs filtered) 1000]
    norm_num
  · have hk := statsStudyDays_ge_one off filtered
    obtain ⟨K, hK⟩ : ∃ K : ℕ, statsStudyDays off filtered = (K : ℤ) :=
      ⟨(statsStudyDays off filtered).toNat, by omega⟩
    unfold statsAvgSec
    rw [hK]
    have hdiv : (statsTotalMs filtered : ℚ) / 1000 / ((K : ℤ) : ℚ) =
        ((statsTotalMs filtered : ℤ) : ℚ) / ((1000 * K : ℕ) : ℚ) := by
      push_cast
      rw [div_div]
    rw [hdiv, Rat.floor_intCast_div_natCast]
    congr 1
